import Mathlib

/-!
Verification of the SyteLine data-flow front end (TypeScript sources under
`src/`): a shallow embedding of the CSV/XLSX export service, the filter
builder, the token-caching API client, the encryption wrapper and the
configuration/credentials storage services, together with theorems about
the claims made by the specification.

Conventions of the embedding:
* JavaScript strings are Lean `String`s (compared by code points).
* A JavaScript field value reaching the export / distinct-value code is
  `Option String`: `none` models `null`/`undefined`, `some s` a value whose
  `String(value)` form is `s`.
* A JavaScript object row is an association list of fields in insertion
  order (`Object.keys` order for the string keys produced by JSON parsing).
* Machine integers do not occur: all arithmetic in the sources is on
  timestamps and list lengths, modelled by `Nat`.
* `fetch` and the Electron save dialog are external effects; they enter the
  embedding as explicit oracle arguments describing the outcome of the one
  request a code path performs.
-/

/-- A JavaScript value as seen by the CSV/distinct-value code:
`none` is `null`/`undefined`, `some s` stringifies to `s`. -/
abbrev JsVal := Option String

/-- A JavaScript object (one data row): fields in insertion order. -/
abbrev JsRecord := List (String × JsVal)

/-- Property access `item[key]`: the first field with that key, `undefined`
(`none`) when absent. -/
def jsGet (item : JsRecord) (key : String) : JsVal :=
  match item.find? (fun p => p.1 == key) with
  | some p => p.2
  | none => none

/-- `Object.keys(item)`: the keys in insertion order. -/
def objectKeys (item : JsRecord) : List String :=
  item.map Prod.fst

/-- `String(x || "")` applied to a field value: `null`/`undefined` and the
empty string collapse to `""`. -/
def stringOrEmpty (v : JsVal) : String :=
  match v with
  | none => ""
  | some s => s

/-- `s.includes(pat)` on JavaScript strings. -/
def strContains (s pat : String) : Bool :=
  decide (pat.data <:+: s.data)

/-- `s.includes(c)` for a single character. -/
def containsChar (s : String) (c : Char) : Bool :=
  s.data.contains c

/-- `s.endsWith(suffix)` on JavaScript strings. -/
def strEndsWith (s suffix : String) : Bool :=
  suffix.data.isSuffixOf s.data

/-- ASCII lower-casing of one character; the formats and header strings this
code lower-cases are ASCII, where `toLowerCase` acts exactly like this. -/
def asciiLower (c : Char) : Char :=
  if 'A' ≤ c ∧ c ≤ 'Z' then Char.ofNat (c.toNat + 32) else c

/-- `s.toLowerCase()` restricted to its ASCII behaviour. -/
def jsToLower (s : String) : String :=
  String.mk (s.data.map asciiLower)

/-- The single-quote character, used by the filter builder to quote values. -/
def singleQuote : String :=
  String.mk [Char.ofNat 39]

/-- `s.trim()`: strip leading and trailing whitespace (the values this code
trims are ASCII, where JavaScript and this definition agree). -/
def jsTrim (s : String) : String :=
  String.mk (((s.data.dropWhile Char.isWhitespace).reverse.dropWhile Char.isWhitespace).reverse)

/-! ### Hex encoding (`EncryptionService`)

`encrypt` renders byte arrays as lowercase hex via
`Array.from(bytes).map(b => b.toString(16).padStart(2, '0')).join('')`;
`decrypt` parses them back via `hex.match(/.{1,2}/g).map(b => parseInt(b, 16))`.
Bytes are `Nat`s; the `Uint8Array` bound `b < 256` is carried as an explicit
hypothesis where it matters. -/

/-- One hex digit as produced by `Number.prototype.toString(16)`:
`0`–`9` then lowercase `a`–`f`. -/
def hexDigitChar (n : Nat) : Char :=
  if n < 10 then Char.ofNat (48 + n) else Char.ofNat (87 + n)

/-- `b.toString(16).padStart(2, '0')` for a byte `b < 256`. -/
def byteToHex (b : Nat) : List Char :=
  [hexDigitChar (b / 16), hexDigitChar (b % 16)]

/-- The hex string of a byte array (`map(..).join('')`). -/
def bytesToHex (bs : List Nat) : String :=
  String.mk (bs.flatMap byteToHex)

/-- `parseInt(c, 16)` for one hex digit character. -/
def hexDigitVal (c : Char) : Nat :=
  if '0' ≤ c ∧ c ≤ '9' then c.toNat - 48
  else if 'a' ≤ c ∧ c ≤ 'f' then c.toNat - 87
  else if 'A' ≤ c ∧ c ≤ 'F' then c.toNat - 55
  else 0

/-- `hex.match(/.{1,2}/g).map(b => parseInt(b, 16))`: split into chunks of
two characters (a trailing lone character forms its own chunk) and parse
each chunk as hex. -/
def hexPairsToBytes : List Char → List Nat
  | [] => []
  | [c] => [hexDigitVal c]
  | c1 :: c2 :: rest => (16 * hexDigitVal c1 + hexDigitVal c2) :: hexPairsToBytes rest

/-- Decode a hex string back into bytes, as `EncryptionService.decrypt` does. -/
def hexToBytes (s : String) : List Nat :=
  hexPairsToBytes s.data

/-- A character the hex encoder can emit: `0`–`9` or lowercase `a`–`f`. -/
def isLowerHexChar (c : Char) : Bool :=
  (decide ('0' ≤ c ∧ c ≤ '9')) || (decide ('a' ≤ c ∧ c ≤ 'f'))

/-! ### `ExportService.convertToCSV` / `escapeCsvValue` (src/src/services/export.ts) -/

/-- `stringValue.replace(/"/g, '""')`. -/
def doubleQuotes (s : String) : String :=
  String.mk (s.data.flatMap (fun c => if c == '"' then ['"', '"'] else [c]))

/-- `ExportService.escapeCsvValue`: `""` for `null`/`undefined`; otherwise
quote the stringified value, doubling embedded quotes, exactly when it
contains a comma, a double quote or a newline. -/
def ExportService.escapeCsvValue (v : JsVal) : String :=
  match v with
  | none => ""
  | some s =>
    if containsChar s ',' || containsChar s '"' || containsChar s '\n' then
      "\"" ++ doubleQuotes s ++ "\""
    else s

/-- `ExportService.convertToCSV`: header row from the first record's keys,
then one row per record, each cell escaped, rows joined by `"\n"`. -/
def ExportService.convertToCSV (items : List JsRecord) : String :=
  match items with
  | [] => ""
  | first :: _ =>
    let headers := objectKeys first
    let headerRow := String.intercalate "," (headers.map (fun h => ExportService.escapeCsvValue (some h)))
    let dataRows := items.map (fun item =>
      String.intercalate "," (headers.map (fun h => ExportService.escapeCsvValue (jsGet item h))))
    String.intercalate "\n" (headerRow :: dataRows)

/-- Spec-side restatement of `escapeCsvValue`, following the claim's words:
empty for `null`/`undefined`; wrapped in double quotes with embedded double
quotes doubled exactly when the string contains a comma, a double quote, or
a newline character; unchanged otherwise. -/
def escapeCsvSpec (v : JsVal) : String :=
  match v with
  | none => ""
  | some s =>
    if s.data.contains ',' || s.data.contains '"' || s.data.contains '\n' then
      "\"" ++ String.mk (s.data.flatMap (fun c => if c == '"' then ['"', '"'] else [c])) ++ "\""
    else s

/-- Spec-side restatement of the CSV layout, following the claim's words:
a header row built from the keys of the first record followed by one row
per record in order, rows joined by `"\n"`, every cell escaped. -/
def csvSpec (first : JsRecord) (rest : List JsRecord) : String :=
  String.intercalate "\n"
    (String.intercalate "," ((objectKeys first).map (fun h => escapeCsvSpec (some h))) ::
      (first :: rest).map (fun item =>
        String.intercalate "," ((objectKeys first).map (fun h => escapeCsvSpec (jsGet item h)))))

/-! ### `FilterUtils.buildFiltersFromValues` (src/src/services/export.ts)

The two platform parsers are oracle arguments:
* `dateParses val` models `!isNaN(new Date(val).getTime())` for a string
  that already matched the `YYYY-MM-DD` regex;
* `parseFloatShow val` models `parseFloat(val)` followed by template
  stringification: `none` when the result is `NaN`, otherwise the rendered
  number. -/

/-- One filterable field of a job definition. -/
structure FilterField where
  name : String
  type : String
  operator : String
deriving DecidableEq

/-- The result record `{ filter, error? }`. -/
structure FilterBuild where
  filter : String
  error : Option String
deriving DecidableEq

/-- The regex test `/^\d{4}-\d{2}-\d{2}$/.test(val)`. -/
def matchesDateRegex (s : String) : Bool :=
  match s.data with
  | [y1, y2, y3, y4, h1, m1, m2, h2, d1, d2] =>
    y1.isDigit && y2.isDigit && y3.isDigit && y4.isDigit && h1 == '-' &&
      m1.isDigit && m2.isDigit && h2 == '-' && d1.isDigit && d2.isDigit
  | _ => false

/-- `values[field.name]?.trim()` collapsed with the `!val` check: the
string the loop works on, `""` meaning the field is skipped. -/
def trimmedValue (values : String → Option String) (name : String) : String :=
  match values name with
  | none => ""
  | some v => jsTrim v

/-- The clause `` `${name} ${operator} '${val}'` `` for date and string fields. -/
def quotedClause (f : FilterField) (val : String) : String :=
  f.name ++ " " ++ f.operator ++ " " ++ singleQuote ++ val ++ singleQuote

/-- The loop of `FilterUtils.buildFiltersFromValues`, with the clauses
accumulated so far; an error returns immediately with `filter: ""`. -/
def FilterUtils.buildLoop (dateParses : String → Bool) (parseFloatShow : String → Option String)
    (values : String → Option String) : List FilterField → List String → FilterBuild
  | [], acc =>
    { filter := if acc.length > 0 then String.intercalate " AND " acc else "", error := none }
  | f :: rest, acc =>
    let val := trimmedValue values f.name
    if val == "" then
      FilterUtils.buildLoop dateParses parseFloatShow values rest acc
    else if f.type == "date" then
      if !matchesDateRegex val then
        { filter := "", error := some ("Invalid date format for " ++ f.name ++ ": " ++ val ++ ". Expected YYYY-MM-DD") }
      else if !dateParses val then
        { filter := "", error := some ("Invalid date for " ++ f.name ++ ": " ++ val) }
      else
        FilterUtils.buildLoop dateParses parseFloatShow values rest (acc ++ [quotedClause f val])
    else if f.type == "number" then
      match parseFloatShow val with
      | none => { filter := "", error := some ("Invalid number for " ++ f.name ++ ": " ++ val) }
      | some numVal =>
        FilterUtils.buildLoop dateParses parseFloatShow values rest (acc ++ [f.name ++ " " ++ f.operator ++ " " ++ numVal])
    else
      FilterUtils.buildLoop dateParses parseFloatShow values rest (acc ++ [quotedClause f val])

/-- `FilterUtils.buildFiltersFromValues`. -/
def FilterUtils.buildFiltersFromValues (dateParses : String → Bool)
    (parseFloatShow : String → Option String) (fields : List FilterField)
    (values : String → Option String) : FilterBuild :=
  FilterUtils.buildLoop dateParses parseFloatShow values fields []

/-- Spec-side outcome of one field, following the claim's words: `none`
when the trimmed value is empty (the field is skipped), an error for an
invalid date or number, otherwise the clause it contributes. -/
def fieldOutcome (dateParses : String → Bool) (parseFloatShow : String → Option String)
    (values : String → Option String) (f : FilterField) : Option (Except String String) :=
  let val := trimmedValue values f.name
  if val == "" then none
  else if f.type == "date" then
    if !matchesDateRegex val then
      some (.error ("Invalid date format for " ++ f.name ++ ": " ++ val ++ ". Expected YYYY-MM-DD"))
    else if !dateParses val then
      some (.error ("Invalid date for " ++ f.name ++ ": " ++ val))
    else some (.ok (quotedClause f val))
  else if f.type == "number" then
    match parseFloatShow val with
    | none => some (.error ("Invalid number for " ++ f.name ++ ": " ++ val))
    | some numVal => some (.ok (f.name ++ " " ++ f.operator ++ " " ++ numVal))
  else some (.ok (quotedClause f val))

/-- First error among the non-skipped fields, in order. -/
def firstFieldError (outs : List (Except String String)) : Option String :=
  outs.findSome? (fun o => match o with | .error e => some e | .ok _ => none)

/-- The clauses of the non-skipped, non-erroring fields, in order. -/
def okClauses (outs : List (Except String String)) : List String :=
  outs.filterMap (fun o => match o with | .ok c => some c | .error _ => none)

/-- Spec-side restatement of the whole builder, following the claim's words:
skip empty fields; report the first field error with `filter: ""`; otherwise
join the clauses with `" AND "` (the empty string when there are none). -/
def buildFiltersSpec (dateParses : String → Bool) (parseFloatShow : String → Option String)
    (fields : List FilterField) (values : String → Option String) : FilterBuild :=
  let outs := fields.filterMap (fieldOutcome dateParses parseFloatShow values)
  match firstFieldError outs with
  | some e => { filter := "", error := some e }
  | none => { filter := String.intercalate " AND " (okClauses outs), error := none }

/-! ### `ExportService.exportData` / `ElectronExportService.exportData`
(src/src/services/export.ts, src/src/services/export-electron.ts)

The browser download (Blob/anchor click) and the XLSX workbook bytes have no
observable effect on the returned value and are not modelled; the timestamp
`new Date().toISOString().replace(...)` is an oracle argument. The Electron
native save dialog is an oracle `saveDialog` from the suggested default path
to the path the user chose (`none` when cancelled). -/

/-- The successful result record `{ filePath, recordCount }`. -/
structure ExportOk where
  filePath : String
  recordCount : Nat
deriving DecidableEq

/-- `` `${jobName}_${timestamp}.${outputFormat.toLowerCase()}` ``. -/
def fileNameFor (jobName timestamp outputFormat : String) : String :=
  jobName ++ "_" ++ timestamp ++ "." ++ jsToLower outputFormat

/-- `outputDir ? `${outputDir}/${fileName}` : fileName`. -/
def pathFor (outputDir : Option String) (fileName : String) : String :=
  match outputDir with
  | some d => d ++ "/" ++ fileName
  | none => fileName

/-- `ExportService.exportData` (web variant): reject empty input, dispatch on
the lower-cased format, download, and return the file path and record count. -/
def ExportService.exportData (items : Option (List JsRecord)) (jobName outputFormat : String)
    (outputDir : Option String) (timestamp : String) : Except String ExportOk :=
  match items with
  | none => .error "No data to export"
  | some l =>
    if l.length = 0 then .error "No data to export"
    else
      let fileName := fileNameFor jobName timestamp outputFormat
      if jsToLower outputFormat == "csv" then
        .ok { filePath := pathFor outputDir fileName, recordCount := l.length }
      else if jsToLower outputFormat == "xlsx" then
        .ok { filePath := pathFor outputDir fileName, recordCount := l.length }
      else .error ("Unsupported format: " ++ outputFormat)

/-- `ElectronExportService.exportDataElectron`: dispatch on the format, open
the native save dialog with the suggested default path, fail when cancelled,
otherwise return the path the dialog reported. -/
def ElectronExportService.exportDataElectron (saveDialog : String → Option String)
    (items : List JsRecord) (jobName outputFormat : String) (outputDir : Option String)
    (timestamp : String) : Except String ExportOk :=
  let fileName := fileNameFor jobName timestamp outputFormat
  let dialogStep : Except String ExportOk :=
    match saveDialog (pathFor outputDir fileName) with
    | none => .error "Export cancelled by user"
    | some filePath => .ok { filePath := filePath, recordCount := items.length }
  if jsToLower outputFormat == "csv" then dialogStep
  else if jsToLower outputFormat == "xlsx" then dialogStep
  else .error ("Unsupported format: " ++ outputFormat)

/-- `ElectronExportService.exportData`: empty-input check, then the native
path when running in Electron, else the web variant. -/
def ElectronExportService.exportData (isElectron : Bool) (saveDialog : String → Option String)
    (items : Option (List JsRecord)) (jobName outputFormat : String)
    (outputDir : Option String) (timestamp : String) : Except String ExportOk :=
  match items with
  | none => .error "No data to export"
  | some l =>
    if l.length = 0 then .error "No data to export"
    else if isElectron then
      ElectronExportService.exportDataElectron saveDialog l jobName outputFormat outputDir timestamp
    else
      ExportService.exportData (some l) jobName outputFormat outputDir timestamp

/-! ### `ApiService` (src/src/services/api.ts)

State: the cached token, the in-memory `Map` cache (an association list in
insertion order) and the parsed content of `localStorage["ido_api_cache"]`
(`JSON.parse`/`JSON.stringify` of the cache record is assumed faithful, so
the slot holds the structured entries directly). Each HTTP request a call
performs is an oracle argument giving that request's outcome; the third
component of each result counts the HTTP requests actually issued. URL
construction and `console.log` calls have no observable effect here and are
not modelled. -/

/-- One cache entry `{ data, expiry }` (expiry in ms since the epoch). -/
structure CacheEntry where
  data : List String
  expiry : Nat
deriving DecidableEq

/-- The mutable fields of an `ApiService` instance. -/
structure ApiState where
  token : Option String
  cache : List (String × CacheEntry)
  storage : Option (List (String × CacheEntry))
deriving DecidableEq

/-- Outcome of the token request in `getAuthHeaders`: a 200 response whose
JSON `Token` field is `token` (`none` when absent), a non-OK response, a
network failure (`TypeError: Failed to fetch`), or an abort timeout. -/
inductive TokenFetch where
  | ok (token : Option String)
  | httpError (status : Nat) (statusText : String) (body : String)
  | networkError
  | timeout
deriving DecidableEq

/-- Outcome of the IDO load request: a 200 response whose `Items` field
parses to the given rows, a non-OK response, a network failure, or a
timeout. -/
inductive LoadFetch where
  | ok (items : List JsRecord)
  | httpError (status : Nat) (body : String)
  | networkError
  | timeout
deriving DecidableEq

/-- The headers record built by `getAuthHeaders`; `{}` is all-`none`. -/
structure AuthHeaders where
  mongooseConfig : Option String
  authorization : Option String
  accept : Option String
deriving DecidableEq

/-- The empty headers object returned on failure. -/
def emptyHeaders : AuthHeaders := ⟨none, none, none⟩

/-- `{ headers, error? }` as returned by `getAuthHeaders`. -/
structure AuthResult where
  headers : AuthHeaders
  error : Option String
deriving DecidableEq

/-- API configuration; only `config` flows into observable values here. -/
structure ApiConfig where
  base_url : String
  config : String
  timeout : Nat
deriving DecidableEq

/-- Message of the browser `TypeError` raised when `fetch` cannot reach the
server (the string the code's `includes('Failed to fetch')` test targets). -/
def networkErrorMessage : String := "Failed to fetch"

/-- Stand-in for the platform message of the `AbortSignal.timeout` exception;
its text never matters to the theorems below, only that it is the message of
an error whose name is `TimeoutError`. -/
def timeoutErrorMessage : String := "The operation was aborted due to timeout"

/-- `` `HTTP ${status}: ${statusText}${errorText ? ` - ${errorText}` : ''}` ``. -/
def httpErrorMessage (status : Nat) (statusText body : String) : String :=
  "HTTP " ++ toString status ++ ": " ++ statusText ++ (if body == "" then "" else " - " ++ body)

/-- The `catch` block of `getAuthHeaders`: rewrite common failures into
friendlier messages. -/
def rewriteAuthError (isTimeout : Bool) (msg : String) : String :=
  if isTimeout then "Request timeout - server may be slow or unreachable"
  else if strContains msg "Failed to fetch" then
    "Cannot reach server. This might be due to:\n• CORS policy blocking the request\n• Server not responding\n• Network connectivity issues\n• Invalid server URL"
  else if strContains msg "401" || strContains msg "Unauthorized" then
    "Invalid username or password for SyteLine system"
  else if strContains msg "404" then
    "API endpoint not found - check base URL and configuration name"
  else msg

/-- `ApiService.getAuthHeaders`: serve the cached token without a request;
otherwise perform the token request, cache a truthy `Token`, and map every
failure to an error result with empty headers. -/
def ApiService.getAuthHeaders (cfg : ApiConfig) (fetchToken : TokenFetch) (s : ApiState) :
    AuthResult × ApiState × Nat :=
  match s.token with
  | some t => (⟨⟨some cfg.config, some t, some "application/json"⟩, none⟩, s, 0)
  | none =>
    match fetchToken with
    | .ok tokenField =>
      match tokenField with
      | some tk =>
        if tk == "" then (⟨emptyHeaders, some "No token received from server"⟩, s, 1)
        else (⟨⟨some cfg.config, some tk, some "application/json"⟩, none⟩, { s with token := some tk }, 1)
      | none => (⟨emptyHeaders, some "No token received from server"⟩, s, 1)
    | .httpError st stt body =>
      (⟨emptyHeaders, some (rewriteAuthError false (httpErrorMessage st stt body))⟩, s, 1)
    | .networkError => (⟨emptyHeaders, some (rewriteAuthError false networkErrorMessage)⟩, s, 1)
    | .timeout => (⟨emptyHeaders, some (rewriteAuthError true timeoutErrorMessage)⟩, s, 1)

/-- `` `${idoName}_${propertyName}` ``. -/
def cacheKey (idoName propertyName : String) : String :=
  idoName ++ "_" ++ propertyName

/-- `this.cache.get(key)` on the association-list model of the `Map`. -/
def lookupCache (cache : List (String × CacheEntry)) (key : String) : Option CacheEntry :=
  match cache.find? (fun p => p.1 == key) with
  | some p => some p.2
  | none => none

/-- `this.cache.set(key, e)`: replace in place when present, append when new. -/
def setCache (cache : List (String × CacheEntry)) (key : String) (e : CacheEntry) :
    List (String × CacheEntry) :=
  if (cache.find? (fun p => p.1 == key)).isSome then
    cache.map (fun p => if p.1 == key then (key, e) else p)
  else cache ++ [(key, e)]

/-- The record `saveCache` writes to `localStorage`: the entries whose
`expiry > Date.now()`. -/
def ApiService.saveCacheData (cache : List (String × CacheEntry)) (now : Nat) :
    List (String × CacheEntry) :=
  cache.filter (fun p => decide (now < p.2.expiry))

/-- The entries `loadCache` inserts at construction: the stored entries whose
`expiry > Date.now()` (an empty or unreadable slot yields none). -/
def ApiService.loadCacheData (stored : Option (List (String × CacheEntry))) (now : Nat) :
    List (String × CacheEntry) :=
  match stored with
  | none => []
  | some l => l.filter (fun p => decide (now < p.2.expiry))

/-- The distinct-values processing of `getDistinctValues`: keep each value
that is non-empty and unseen, remembering the seen values. -/
def dedupLoop : List String → List String → List String
  | [], _ => []
  | v :: rest, seen =>
    if (v != "") && !(seen.contains v) then v :: dedupLoop rest (v :: seen)
    else dedupLoop rest seen

/-- Ascending insertion used to model `Array.prototype.sort()` on strings. -/
def insertSorted (x : String) : List String → List String
  | [] => [x]
  | y :: ys => if x ≤ y then x :: y :: ys else y :: insertSorted x ys

/-- `uniqueValues.sort()`: ascending lexicographic sort of the strings. -/
def sortStrings : List String → List String
  | [] => []
  | x :: xs => insertSorted x (sortStrings xs)

/-- The full value pipeline of `getDistinctValues`: stringified-or-empty
property values, trimmed, empties and duplicates removed keeping first
occurrences, then sorted. -/
def processDistinct (items : List JsRecord) (propertyName : String) : List String :=
  sortStrings (dedupLoop (items.map (fun item => jsTrim (stringOrEmpty (jsGet item propertyName)))) [])

/-- `{ values?, error? }` as returned by `getDistinctValues`. -/
structure DistinctResult where
  values : Option (List String)
  error : Option String
deriving DecidableEq

/-- The cache-miss continuation of `getDistinctValues`: authenticate, load,
process, store in the cache and persist it. -/
def ApiService.getDistinctValuesMiss (cfg : ApiConfig) (fetchToken : TokenFetch)
    (fetchLoad : LoadFetch) (idoName propertyName : String) (cacheDuration : Nat)
    (now : Nat) (s : ApiState) : DistinctResult × ApiState × Nat :=
  match ApiService.getAuthHeaders cfg fetchToken s with
  | (authResult, s1, n1) =>
    match authResult.error with
    | some e => (⟨none, some e⟩, s1, n1)
    | none =>
      match fetchLoad with
      | .ok items =>
        let uniqueValues := processDistinct items propertyName
        let cache2 := setCache s1.cache (cacheKey idoName propertyName)
          ⟨uniqueValues, now + cacheDuration * 1000⟩
        (⟨some uniqueValues, none⟩,
          { s1 with cache := cache2, storage := some (ApiService.saveCacheData cache2 now) },
          n1 + 1)
      | .httpError st body =>
        (⟨none, some ("Request failed: " ++ "API Error " ++ toString st ++ ": " ++ body)⟩, s1, n1 + 1)
      | .networkError =>
        (⟨none, some ("Request failed: " ++ networkErrorMessage)⟩, s1, n1 + 1)
      | .timeout =>
        (⟨none, some ("Request failed: " ++ timeoutErrorMessage)⟩, s1, n1 + 1)

/-- `ApiService.getDistinctValues`: serve an unexpired cache entry without
any request, otherwise run the miss path. -/
def ApiService.getDistinctValues (cfg : ApiConfig) (fetchToken : TokenFetch)
    (fetchLoad : LoadFetch) (idoName propertyName : String) (cacheDuration : Nat)
    (now : Nat) (s : ApiState) : DistinctResult × ApiState × Nat :=
  match lookupCache s.cache (cacheKey idoName propertyName) with
  | some cached =>
    if now < cached.expiry then (⟨some cached.data, none⟩, s, 0)
    else ApiService.getDistinctValuesMiss cfg fetchToken fetchLoad idoName propertyName cacheDuration now s
  | none => ApiService.getDistinctValuesMiss cfg fetchToken fetchLoad idoName propertyName cacheDuration now s

/-- `{ data?, error? }` as returned by `loadCollection` (the `response`
object adds nothing observable beyond `data` and is dropped). -/
structure LoadResult where
  data : Option (List JsRecord)
  error : Option String
deriving DecidableEq

/-- `ApiService.loadCollection`: authenticate, perform the load request, and
map every failure to an error result. -/
def ApiService.loadCollection (cfg : ApiConfig) (fetchToken : TokenFetch)
    (fetchLoad : LoadFetch) (s : ApiState) : LoadResult × ApiState × Nat :=
  match ApiService.getAuthHeaders cfg fetchToken s with
  | (authResult, s1, n1) =>
    match authResult.error with
    | some e => (⟨none, some e⟩, s1, n1)
    | none =>
      match fetchLoad with
      | .ok items => (⟨some items, none⟩, s1, n1 + 1)
      | .httpError st body =>
        (⟨none, some ("API Error " ++ toString st ++ ": " ++ body)⟩, s1, n1 + 1)
      | .timeout => (⟨none, some "Request timeout after 30 seconds"⟩, s1, n1 + 1)
      | .networkError =>
        (⟨none, some "Network error: Cannot reach the API server. This might be due to CORS policy restrictions when calling external APIs from the browser."⟩, s1, n1 + 1)

/-- `{ success, error? }` as returned by `testConnection` (the `details`
payload is diagnostic text only and is dropped). -/
structure TestResult where
  success : Bool
  error : Option String
deriving DecidableEq

/-- `ApiService.testConnection`: succeed exactly when `getAuthHeaders` does. -/
def ApiService.testConnection (cfg : ApiConfig) (fetchToken : TokenFetch) (s : ApiState) :
    TestResult × ApiState × Nat :=
  match ApiService.getAuthHeaders cfg fetchToken s with
  | (authResult, s1, n1) =>
    match authResult.error with
    | some e => (⟨false, some e⟩, s1, n1)
    | none => (⟨true, none⟩, s1, n1)

/-- `true` exactly when the token request outcome makes `getAuthHeaders`
fail on an instance without a cached token: timeout, network error, non-OK
status, or a missing/empty `Token` field. -/
def TokenFetch.isFailure : TokenFetch → Bool
  | .ok (some tk) => tk == ""
  | .ok none => true
  | _ => true

/-- `true` exactly when the load request outcome makes the call fail. -/
def LoadFetch.isFailure : LoadFetch → Bool
  | .ok _ => false
  | _ => true

/-- `true` exactly when `getDistinctValues` would serve the cache: an entry
for the key exists and is unexpired. -/
def cacheHit (cache : List (String × CacheEntry)) (key : String) (now : Nat) : Bool :=
  match lookupCache cache key with
  | some e => decide (now < e.expiry)
  | none => false

/-! ### `EncryptionService` (src/src/components/ConfigurationModal.tsx)

Modelled from the spec: the browser `crypto.subtle` and `TextEncoder` /
`TextDecoder` primitives the wrapper calls are not part of this repository.
They enter the embedding as an abstract `WebCrypto` bundle; `WebCrypto.Sound`
states exactly the properties the spec attributes to them — PBKDF2 key
derivation is a deterministic function of password and salt, AES-GCM
decryption with the same key and IV inverts encryption and produces bytes,
and UTF-8 decoding inverts encoding. The randomness of
`crypto.getRandomValues` is made explicit: `encrypt` receives the drawn
`salt` and `iv` as arguments. -/

/-- The abstract browser crypto primitives used by `EncryptionService`;
keys are opaque handles (`Nat`). -/
structure WebCrypto where
  deriveKey : String → List Nat → Nat
  aesGcmEncrypt : Nat → List Nat → List Nat → List Nat
  aesGcmDecrypt : Nat → List Nat → List Nat → List Nat
  textEncode : String → List Nat
  textDecode : List Nat → String

/-- The specification of the primitives: decryption inverts encryption under
the key derived from the same password and salt, ciphertexts are bytes, and
text decoding inverts encoding into bytes. -/
def WebCrypto.Sound (C : WebCrypto) : Prop :=
  (∀ password salt iv m,
    C.aesGcmDecrypt (C.deriveKey password salt) iv (C.aesGcmEncrypt (C.deriveKey password salt) iv m) = m)
  ∧ (∀ key iv m, (∀ b ∈ m, b < 256) → ∀ b ∈ C.aesGcmEncrypt key iv m, b < 256)
  ∧ (∀ s, C.textDecode (C.textEncode s) = s)
  ∧ (∀ s, ∀ b ∈ C.textEncode s, b < 256)

/-- The record `{ encrypted, salt, iv }` of hex strings returned by
`EncryptionService.encrypt`. -/
structure EncryptedPayload where
  encrypted : String
  salt : String
  iv : String
deriving DecidableEq

/-- `EncryptionService.encrypt`: derive the key from password and salt,
AES-GCM-encrypt the UTF-8 bytes of the data under the drawn IV, and render
ciphertext, salt and IV as hex. -/
def EncryptionService.encrypt (C : WebCrypto) (data password : String)
    (salt iv : List Nat) : EncryptedPayload :=
  let key := C.deriveKey password salt
  let encrypted := C.aesGcmEncrypt key iv (C.textEncode data)
  ⟨bytesToHex encrypted, bytesToHex salt, bytesToHex iv⟩

/-- `EncryptionService.decrypt`: parse the three hex strings, derive the key
from the password and the parsed salt, decrypt and decode. -/
def EncryptionService.decrypt (C : WebCrypto) (encryptedHex saltHex ivHex password : String) :
    String :=
  let salt := hexToBytes saltHex
  let iv := hexToBytes ivHex
  let encrypted := hexToBytes encryptedHex
  let key := C.deriveKey password salt
  C.textDecode (C.aesGcmDecrypt key iv encrypted)

/-- Three-byte little-endian rendering of one character's code point; part
of a concrete `WebCrypto` instance used to witness the crypto theorems. -/
def charBytes (c : Char) : List Nat :=
  [c.toNat % 256, c.toNat / 256 % 256, c.toNat / 65536]

/-- Inverse of `charBytes` on well-formed byte lists. -/
def charsOfBytes : List Nat → List Char
  | b0 :: b1 :: b2 :: rest => Char.ofNat (b0 + 256 * b1 + 65536 * b2) :: charsOfBytes rest
  | _ => []

/-- A concrete, trivially sound `WebCrypto` instance (identity cipher over a
three-byte text encoding); it exists only so the crypto theorems can be
evaluated on closed inputs. -/
def idCrypto : WebCrypto where
  deriveKey := fun _ _ => 0
  aesGcmEncrypt := fun _ _ m => m
  aesGcmDecrypt := fun _ _ c => c
  textEncode := fun s => s.data.flatMap charBytes
  textDecode := fun bs => String.mk (charsOfBytes bs)

/-! ### `ConfigurationService` / `CredentialsService`
(src/unnamed/part_003 — services/database.ts, and ConfigurationModal.tsx)

`JSON.stringify` of the constructed credentials object is an oracle argument
`serialize`; the Supabase write is returned as an explicit `DbWrite` value
rather than performed. -/

/-- The inputs `saveConfiguration` reads from `configData` (the parseInt
defaulting of the numeric fields happens inside `serialize`'s argument and
is irrelevant to what is stored). -/
structure ConfigInput where
  api_base_url : String
  api_config : String
  user_username : String
  user_password : String
deriving DecidableEq

/-- A row of `user_configurations` as returned by the existence query. -/
structure UserConfigRow where
  id : String
  user_id : String
  username : String
deriving DecidableEq

/-- The single backend write `saveConfiguration` performs. -/
inductive DbWrite where
  | update (id : String) (encrypted_data salt iv : String)
  | insert (user_id username encrypted_data salt iv : String)
deriving DecidableEq

/-- `{ success, error? }` from `saveConfiguration` (the `existingConfig`
payload of the conflict branch is dropped). -/
structure SaveConfigResult where
  success : Bool
  error : Option String
deriving DecidableEq

/-- `ConfigurationService.saveConfiguration`: refuse without a session,
refuse when another user owns the username, otherwise encrypt the serialized
credentials and update or insert the row; the performed write is returned. -/
def ConfigurationService.saveConfiguration (C : WebCrypto) (serialize : ConfigInput → String)
    (authUser : Option String) (existingConfigs : List UserConfigRow)
    (username : String) (configData : ConfigInput) (encryptionPassword : String)
    (salt iv : List Nat) : SaveConfigResult × Option DbWrite :=
  match authUser with
  | none => (⟨false, some "User not authenticated"⟩, none)
  | some uid =>
    let existingUserConfig := existingConfigs.find? (fun c => c.user_id == uid)
    let existingOtherConfig := existingConfigs.find? (fun c => c.user_id != uid)
    match existingOtherConfig with
    | some _ => (⟨false, some "Configuration with this username already exists"⟩, none)
    | none =>
      let encrypted := EncryptionService.encrypt C (serialize configData) encryptionPassword salt iv
      match existingUserConfig with
      | some row => (⟨true, none⟩, some (.update row.id encrypted.encrypted encrypted.salt encrypted.iv))
      | none => (⟨true, none⟩, some (.insert uid username encrypted.encrypted encrypted.salt encrypted.iv))

/-- `JSON.stringify({ encrypted, salt, iv })` for hex-string fields (which
contain nothing `JSON.stringify` would escape). -/
def jsonOfEncrypted (e : EncryptedPayload) : String :=
  "\x7b\"encrypted\":\"" ++ e.encrypted ++ "\",\"salt\":\"" ++ e.salt ++ "\",\"iv\":\"" ++ e.iv ++ "\"\x7d"

/-- `CredentialsService.saveCredentials`: the string stored into
`localStorage["ido_encrypted_credentials"]`. -/
def CredentialsService.saveCredentials (C : WebCrypto) (serialize : ConfigInput → String)
    (credentials : ConfigInput) (password : String) (salt iv : List Nat) : String :=
  jsonOfEncrypted (EncryptionService.encrypt C (serialize credentials) password salt iv)

/-- A character that can occur in the `saveCredentials` localStorage value:
a lowercase hex digit or part of the fixed JSON skeleton. -/
def credsAllowedChar (c : Char) : Bool :=
  isLowerHexChar c || ("\x7b\x7d\":,encryptdsaliv".data.contains c)

/-- Spec-side first-occurrence deduplication, following the claim's words:
keep each value's first occurrence, dropping the later ones. -/
def specDedup : List String → List String
  | [] => []
  | x :: xs => x :: specDedup (xs.filter (fun y => y != x))
termination_by l => l.length
decreasing_by
  exact Nat.lt_succ_of_le (List.length_filter_le _ _)

/-! ## Theorems -/

theorem hexDigitVal_hexDigitChar (n : Nat) (h : n < 16) :
    hexDigitVal (hexDigitChar n) = n := by
  interval_cases n <;> decide

theorem isLowerHexChar_hexDigitChar (n : Nat) (h : n < 16) :
    isLowerHexChar (hexDigitChar n) = true := by
  interval_cases n <;> decide

theorem hexPairsToBytes_flatMap (bs : List Nat) (h : ∀ b ∈ bs, b < 256) :
    hexPairsToBytes (bs.flatMap byteToHex) = bs := by
  induction bs with
  | nil => rfl
  | cons b rest ih =>
    have hb : b < 256 := h b (List.mem_cons_self _ _)
    have hdiv : b / 16 < 16 := Nat.div_lt_of_lt_mul (by omega)
    have hmod : b % 16 < 16 := Nat.mod_lt _ (by omega)
    simp only [List.flatMap_cons, byteToHex, List.cons_append, List.nil_append,
      hexPairsToBytes]
    rw [hexDigitVal_hexDigitChar _ hdiv, hexDigitVal_hexDigitChar _ hmod]
    have hrest : ([] : List Char).append (List.map byteToHex rest).flatten = rest.flatMap byteToHex := by
      simp [List.flatMap]
    rw [hrest, ih (fun x hx => h x (List.mem_cons_of_mem _ hx))]
    congr 1
    omega

theorem hexToBytes_bytesToHex (bs : List Nat) (h : ∀ b ∈ bs, b < 256) :
    hexToBytes (bytesToHex bs) = bs := by
  simpa [hexToBytes, bytesToHex] using hexPairsToBytes_flatMap bs h

theorem bytesToHex_chars (bs : List Nat) (h : ∀ b ∈ bs, b < 256) :
    ∀ c ∈ (bytesToHex bs).data, isLowerHexChar c = true := by
  intro c hc
  simp only [bytesToHex] at hc
  rcases List.mem_flatMap.1 hc with ⟨b, hb, hcb⟩
  have h256 : b < 256 := h b hb
  have hdiv : b / 16 < 16 := Nat.div_lt_of_lt_mul (by omega)
  have hmod : b % 16 < 16 := Nat.mod_lt _ (by omega)
  simp only [byteToHex, List.mem_cons, List.mem_singleton, List.not_mem_nil] at hcb
  rcases hcb with h1 | h1 | h1
  · exact h1 ▸ isLowerHexChar_hexDigitChar _ hdiv
  · exact h1 ▸ isLowerHexChar_hexDigitChar _ hmod
  · cases h1

theorem char_toNat_lt (c : Char) : c.toNat < 1114112 := by
  rcases c.valid with h | ⟨_, h2⟩
  · exact Nat.lt_trans h (by norm_num)
  · exact h2

theorem charsOfBytes_flatMap (l : List Char) :
    charsOfBytes (l.flatMap charBytes) = l := by
  induction l with
  | nil => rfl
  | cons c rest ih =>
    simp only [List.flatMap_cons, charBytes, List.cons_append, List.nil_append, charsOfBytes]
    have harith : c.toNat % 256 + 256 * (c.toNat / 256 % 256) + 65536 * (c.toNat / 65536) = c.toNat := by
      omega
    rw [harith, Char.ofNat_toNat]
    have hrest : ([] : List Nat).append (List.map charBytes rest).flatten = rest.flatMap charBytes := by
      simp [List.flatMap]
    rw [hrest, ih]

theorem charBytes_lt (c : Char) : ∀ b ∈ charBytes c, b < 256 := by
  intro b hb
  have hc := char_toNat_lt c
  simp only [charBytes, List.mem_cons, List.mem_singleton, List.not_mem_nil] at hb
  rcases hb with h | h | h | h
  · omega
  · omega
  · omega
  · cases h

theorem idCrypto_sound : idCrypto.Sound := by
  refine ⟨fun _ _ _ _ => rfl, fun _ _ _ h => h, ?_, ?_⟩
  · intro s
    show String.mk (charsOfBytes (s.data.flatMap charBytes)) = s
    rw [charsOfBytes_flatMap]
  · intro s b hb
    rcases List.mem_flatMap.1 hb with ⟨c, _, hcb⟩
    exact charBytes_lt c b hcb

/-- Claim C1: for every plaintext string and password, `EncryptionService.decrypt`
applied to the three hex strings produced by `EncryptionService.encrypt` with the
same password returns exactly the plaintext, for any sound PBKDF2/AES-GCM
primitives and any drawn salt and IV bytes. -/
theorem C1_encrypt_decrypt_roundtrip (C : WebCrypto) (hC : C.Sound)
    (data password : String) (salt iv : List Nat)
    (hsalt : ∀ b ∈ salt, b < 256) (hiv : ∀ b ∈ iv, b < 256) :
    EncryptionService.decrypt C
      (EncryptionService.encrypt C data password salt iv).encrypted
      (EncryptionService.encrypt C data password salt iv).salt
      (EncryptionService.encrypt C data password salt iv).iv
      password = data := by
  obtain ⟨hdec, hencBytes, hdecode, hencodeBytes⟩ := hC
  simp only [EncryptionService.encrypt, EncryptionService.decrypt]
  rw [hexToBytes_bytesToHex salt hsalt, hexToBytes_bytesToHex iv hiv,
    hexToBytes_bytesToHex _ (hencBytes _ _ _ (hencodeBytes data)), hdec, hdecode]

/-- Witness for C1 at a concrete instance and inputs. -/
theorem C1_witness :
    EncryptionService.decrypt idCrypto
      (EncryptionService.encrypt idCrypto "secret" "pw" [0, 255, 16] [7, 8]).encrypted
      (EncryptionService.encrypt idCrypto "secret" "pw" [0, 255, 16] [7, 8]).salt
      (EncryptionService.encrypt idCrypto "secret" "pw" [0, 255, 16] [7, 8]).iv
      "pw" = "secret" :=
  C1_encrypt_decrypt_roundtrip idCrypto idCrypto_sound "secret" "pw" [0, 255, 16] [7, 8]
    (by decide) (by decide)

theorem jsGet_eq_none_of_not_mem (item : JsRecord) (k : String)
    (h : k ∉ objectKeys item) : jsGet item k = none := by
  induction item with
  | nil => rfl
  | cons p rest ih =>
    simp only [objectKeys, List.map_cons, List.mem_cons] at h
    push_neg at h
    obtain ⟨h1, h2⟩ := h
    have hb : (p.1 == k) = false := by
      simp only [beq_eq_false_iff_ne, ne_eq]
      exact fun e => h1 e.symm
    simp only [jsGet, List.find?, hb]
    exact ih (by simpa [objectKeys] using h2)

/-- Claim C2: for every non-empty record list, `convertToCSV` is the header
row from the first record's keys followed by one escaped row per record,
joined by newlines; `escapeCsvValue` behaves exactly as the claim describes;
and a key missing from a record yields an empty cell (so keys only in later
records contribute no column, since only the first record's keys are used). -/
theorem C2_convertToCSV_correct (first : JsRecord) (rest : List JsRecord) :
    ExportService.convertToCSV (first :: rest) = csvSpec first rest
    ∧ (∀ v, ExportService.escapeCsvValue v = escapeCsvSpec v)
    ∧ (∀ item : JsRecord, ∀ k : String, k ∉ objectKeys item →
        ExportService.escapeCsvValue (jsGet item k) = "") := by
  have hesc : ∀ v, ExportService.escapeCsvValue v = escapeCsvSpec v := by
    intro v
    cases v with
    | none => rfl
    | some s => rfl
  refine ⟨?_, hesc, ?_⟩
  · simp only [ExportService.convertToCSV, csvSpec, hesc]
  · intro item k h
    rw [jsGet_eq_none_of_not_mem item k h]
    rfl

/-- Witness for C2 at a concrete record list and a concrete missing key. -/
theorem C2_witness :
    ExportService.convertToCSV [[("a", some "1")], [("b", some "2")]] =
      csvSpec [("a", some "1")] [[("b", some "2")]]
    ∧ ExportService.escapeCsvValue (jsGet [("b", some "2")] "a") = "" :=
  ⟨(C2_convertToCSV_correct [("a", some "1")] [[("b", some "2")]]).1,
    (C2_convertToCSV_correct [("a", some "1")] [[("b", some "2")]]).2.2
      [("b", some "2")] "a" (by decide)⟩

theorem firstFieldError_cons_error (e : String) (l : List (Except String String)) :
    firstFieldError (.error e :: l) = some e := rfl

theorem firstFieldError_cons_ok (c : String) (l : List (Except String String)) :
    firstFieldError (.ok c :: l) = firstFieldError l := rfl

theorem okClauses_cons_ok (c : String) (l : List (Except String String)) :
    okClauses (.ok c :: l) = c :: okClauses l := by
  simp [okClauses, List.filterMap_cons]

theorem buildLoop_eq_spec (d : String → Bool) (p : String → Option String)
    (v : String → Option String) (fields : List FilterField) (acc : List String) :
    FilterUtils.buildLoop d p v fields acc =
      match firstFieldError (fields.filterMap (fieldOutcome d p v)) with
      | some e => { filter := "", error := some e }
      | none =>
        { filter := String.intercalate " AND " (acc ++ okClauses (fields.filterMap (fieldOutcome d p v))),
          error := none } := by
  induction fields generalizing acc with
  | nil =>
    simp only [FilterUtils.buildLoop, List.filterMap_nil, firstFieldError,
      List.findSome?_nil, okClauses, List.append_nil]
    cases acc with
    | nil => rfl
    | cons a as => simp [List.length_cons]
  | cons f rest ih =>
    simp only [FilterUtils.buildLoop, List.filterMap_cons, fieldOutcome]
    by_cases h1 : (trimmedValue v f.name == "") = true
    · simp only [h1, if_true]
      exact ih acc
    · rw [Bool.not_eq_true] at h1
      simp only [h1, Bool.false_eq_true, if_false]
      by_cases h2 : (f.type == "date") = true
      · simp only [h2, if_true]
        by_cases h3 : (!matchesDateRegex (trimmedValue v f.name)) = true
        · simp only [h3, if_true, firstFieldError_cons_error]
        · rw [Bool.not_eq_true] at h3
          simp only [h3, Bool.false_eq_true, if_false]
          by_cases h4 : (!d (trimmedValue v f.name)) = true
          · simp only [h4, if_true, firstFieldError_cons_error]
          · rw [Bool.not_eq_true] at h4
            simp only [h4, Bool.false_eq_true, if_false, firstFieldError_cons_ok,
              okClauses_cons_ok]
            rw [ih (acc ++ [quotedClause f (trimmedValue v f.name)])]
            cases firstFieldError (rest.filterMap (fieldOutcome d p v)) with
            | some e => rfl
            | none => simp [List.append_assoc]
      · rw [Bool.not_eq_true] at h2
        simp only [h2, Bool.false_eq_true, if_false]
        by_cases h5 : (f.type == "number") = true
        · simp only [h5, if_true]
          cases hp : p (trimmedValue v f.name) with
          | none => simp only [firstFieldError_cons_error]
          | some numVal =>
            simp only [firstFieldError_cons_ok, okClauses_cons_ok]
            rw [ih (acc ++ [f.name ++ " " ++ f.operator ++ " " ++ numVal])]
            cases firstFieldError (rest.filterMap (fieldOutcome d p v)) with
            | some e => rfl
            | none => simp [List.append_assoc]
        · rw [Bool.not_eq_true] at h5
          simp only [h5, Bool.false_eq_true, if_false, firstFieldError_cons_ok,
            okClauses_cons_ok]
          rw [ih (acc ++ [quotedClause f (trimmedValue v f.name)])]
          cases firstFieldError (rest.filterMap (fieldOutcome d p v)) with
          | some e => rfl
          | none => simp [List.append_assoc]

/-- Claim C4: `buildFiltersFromValues` equals its spec-side description —
skip fields with empty trimmed values; report the first invalid date
(regex or parse failure) or invalid number with `filter: ""`; otherwise join
the quoted (or unquoted numeric) clauses with `" AND "`, the empty string
when no field contributes — and skipping an empty field is literally a
no-op. -/
theorem C4_buildFilters_correct (d : String → Bool) (p : String → Option String)
    (fields : List FilterField) (v : String → Option String) :
    FilterUtils.buildFiltersFromValues d p fields v = buildFiltersSpec d p fields v
    ∧ (∀ f : FilterField, ∀ rest : List FilterField, trimmedValue v f.name = "" →
        FilterUtils.buildFiltersFromValues d p (f :: rest) v =
          FilterUtils.buildFiltersFromValues d p rest v) := by
  constructor
  · rw [FilterUtils.buildFiltersFromValues, buildLoop_eq_spec, buildFiltersSpec]
    cases firstFieldError (fields.filterMap (fieldOutcome d p v)) with
    | some e => rfl
    | none => simp
  · intro f rest hf
    simp only [FilterUtils.buildFiltersFromValues, FilterUtils.buildLoop, hf]
    rfl

/-- Witness for C4 at concrete parsers, fields and values. -/
theorem C4_witness :
    FilterUtils.buildFiltersFromValues (fun _ => true) (fun _ => none)
        [⟨"TransDate", "date", ">="⟩] (fun _ => some "2020-01-01") =
      buildFiltersSpec (fun _ => true) (fun _ => none)
        [⟨"TransDate", "date", ">="⟩] (fun _ => some "2020-01-01")
    ∧ FilterUtils.buildFiltersFromValues (fun _ => true) (fun _ => none)
        [⟨"Lot", "string", "="⟩] (fun _ => some "   ") =
      FilterUtils.buildFiltersFromValues (fun _ => true) (fun _ => none) [] (fun _ => some "   ") :=
  ⟨(C4_buildFilters_correct (fun _ => true) (fun _ => none)
      [⟨"TransDate", "date", ">="⟩] (fun _ => some "2020-01-01")).1,
    (C4_buildFilters_correct (fun _ => true) (fun _ => none)
      [] (fun _ => some "   ")).2 ⟨"Lot", "string", "="⟩ [] (by decide)⟩

/-- Counterexample to claim C5 as stated: in the Electron-native path the
returned `filePath` is whatever path the save dialog reports, so it need not
end in the lowercased format extension (here the dialog chose
`renamed.txt` for a CSV export), and cancelling the dialog raises an error
outside the claimed contract. -/
theorem C5_counterexample :
    ElectronExportService.exportData true (fun _ => some "renamed.txt")
        (some [[("a", some "1")]]) "job" "csv" none "2025-01-01T00-00-00" =
      .ok ⟨"renamed.txt", 1⟩
    ∧ strEndsWith "renamed.txt" ".csv" = false
    ∧ ElectronExportService.exportData true (fun _ => none)
        (some [[("a", some "1")]]) "job" "csv" none "2025-01-01T00-00-00" =
      .error "Export cancelled by user" := by
  refine ⟨rfl, by decide, rfl⟩

/-- Claim C5, amended: both variants throw `No data to export` on null or
empty input and `Unsupported format: ...` when the lowercased format is
neither `csv` nor `xlsx`; the web variant returns `recordCount` equal to the
number of items and a `filePath` ending in the lowercased format extension;
the Electron-native variant returns `recordCount` equal to the number of
items but its `filePath` is the path chosen in the native save dialog (the
suggested default ends in the extension), and it errors with
`Export cancelled by user` when the dialog is cancelled. -/
theorem C5_exportData_contract (jobName outputFormat : String) (outputDir : Option String)
    (timestamp : String) (saveDialog : String → Option String) (isElectron : Bool)
    (l : List JsRecord) :
    (ExportService.exportData none jobName outputFormat outputDir timestamp =
      .error "No data to export")
    ∧ (ExportService.exportData (some []) jobName outputFormat outputDir timestamp =
      .error "No data to export")
    ∧ (ElectronExportService.exportData isElectron saveDialog none jobName outputFormat
        outputDir timestamp = .error "No data to export")
    ∧ (ElectronExportService.exportData isElectron saveDialog (some []) jobName outputFormat
        outputDir timestamp = .error "No data to export")
    ∧ (jsToLower outputFormat ≠ "csv" → jsToLower outputFormat ≠ "xlsx" → l ≠ [] →
        ExportService.exportData (some l) jobName outputFormat outputDir timestamp =
          .error ("Unsupported format: " ++ outputFormat)
        ∧ ElectronExportService.exportDataElectron saveDialog l jobName outputFormat
            outputDir timestamp = .error ("Unsupported format: " ++ outputFormat))
    ∧ (l ≠ [] → (jsToLower outputFormat = "csv" ∨ jsToLower outputFormat = "xlsx") →
        ∃ pre, ExportService.exportData (some l) jobName outputFormat outputDir timestamp =
          .ok ⟨pre ++ "." ++ jsToLower outputFormat, l.length⟩)
    ∧ ((jsToLower outputFormat = "csv" ∨ jsToLower outputFormat = "xlsx") →
        (∀ chosen, saveDialog (pathFor outputDir (fileNameFor jobName timestamp outputFormat)) =
            some chosen →
          ElectronExportService.exportDataElectron saveDialog l jobName outputFormat
            outputDir timestamp = .ok ⟨chosen, l.length⟩)
        ∧ (saveDialog (pathFor outputDir (fileNameFor jobName timestamp outputFormat)) = none →
          ElectronExportService.exportDataElectron saveDialog l jobName outputFormat
            outputDir timestamp = .error "Export cancelled by user")) := by
  have hne : ∀ {m : List JsRecord}, m ≠ [] → (m.length = 0) = False := by
    intro m hm
    simp [List.length_eq_zero, hm]
  refine ⟨rfl, rfl, rfl, ?_, ?_, ?_, ?_⟩
  · cases isElectron <;> rfl
  · intro h1 h2 h3
    have hb1 : (jsToLower outputFormat == "csv") = false := by
      simp [beq_eq_false_iff_ne, h1]
    have hb2 : (jsToLower outputFormat == "xlsx") = false := by
      simp [beq_eq_false_iff_ne, h2]
    constructor
    · simp only [ExportService.exportData, hne h3, if_false, hb1, hb2,
        Bool.false_eq_true]
    · simp only [ElectronExportService.exportDataElectron, hb1, hb2,
        Bool.false_eq_true, if_false]
  · intro h3 hfmt
    refine ⟨pathFor outputDir (jobName ++ "_" ++ timestamp), ?_⟩
    have hpath : pathFor outputDir (fileNameFor jobName timestamp outputFormat) =
        pathFor outputDir (jobName ++ "_" ++ timestamp) ++ "." ++ jsToLower outputFormat := by
      cases outputDir <;> simp [pathFor, fileNameFor, String.append_assoc]
    rcases hfmt with h | h
    · have hb1 : (jsToLower outputFormat == "csv") = true := by simp [h]
      simp only [ExportService.exportData, hne h3, if_false, hb1, if_true, hpath]
    · have hb2 : (jsToLower outputFormat == "xlsx") = true := by simp [h]
      by_cases hb1 : (jsToLower outputFormat == "csv") = true
      · simp only [ExportService.exportData, hne h3, if_false, hb1, if_true, hpath]
      · rw [Bool.not_eq_true] at hb1
        simp only [ExportService.exportData, hne h3, if_false, hb1, hb2,
          Bool.false_eq_true, if_true, hpath]
  · intro hfmt
    have hstep : ∀ r : Except String ExportOk,
        (match saveDialog (pathFor outputDir (fileNameFor jobName timestamp outputFormat)) with
          | none => Except.error "Export cancelled by user"
          | some filePath => Except.ok (⟨filePath, l.length⟩ : ExportOk)) = r →
        ElectronExportService.exportDataElectron saveDialog l jobName outputFormat
          outputDir timestamp = r := by
      intro r hr
      rcases hfmt with h | h
      · have hb1 : (jsToLower outputFormat == "csv") = true := by simp [h]
        simp only [ElectronExportService.exportDataElectron, hb1, if_true]
        exact hr
      · have hb2 : (jsToLower outputFormat == "xlsx") = true := by simp [h]
        by_cases hb1 : (jsToLower outputFormat == "csv") = true
        · simp only [ElectronExportService.exportDataElectron, hb1, if_true]
          exact hr
        · rw [Bool.not_eq_true] at hb1
          simp only [ElectronExportService.exportDataElectron, hb1, hb2,
            Bool.false_eq_true, if_false, if_true]
          exact hr
    constructor
    · intro chosen hc
      exact hstep _ (by rw [hc])
    · intro hc
      exact hstep _ (by rw [hc])

/-- Witness for (amended) C5 at concrete formats, items and dialogs. -/
theorem C5_witness :
    ExportService.exportData none "job" "csv" none "T" = .error "No data to export"
    ∧ (∃ pre, ExportService.exportData (some [[("a", some "1")]]) "job" "CSV" none "T" =
        .ok ⟨pre ++ "." ++ jsToLower "CSV", 1⟩)
    ∧ ExportService.exportData (some [[("a", some "1")]]) "job" "pdf" none "T" =
        .error "Unsupported format: pdf"
    ∧ ElectronExportService.exportDataElectron (fun _ => none) [[("a", some "1")]]
        "job" "csv" none "T" = .error "Export cancelled by user" :=
  ⟨(C5_exportData_contract "job" "csv" none "T" (fun _ => none) false []).1,
    (C5_exportData_contract "job" "CSV" none "T" (fun _ => none) false
      [[("a", some "1")]]).2.2.2.2.2.1 (by decide) (Or.inl (by decide)),
    ((C5_exportData_contract "job" "pdf" none "T" (fun _ => none) false
      [[("a", some "1")]]).2.2.2.2.1 (by decide) (by decide) (by decide)).1,
    ((C5_exportData_contract "job" "csv" none "T" (fun _ => none) false
      [[("a", some "1")]]).2.2.2.2.2.2 (Or.inl (by decide))).2 rfl⟩

/-- Claim C3: with a cached token, `getAuthHeaders` returns the three headers
built from the instance's config and the cached token, issues no HTTP
request, and leaves the state untouched; after one successful token request
the token is stored and every later call on that state behaves as above. -/
theorem C3_getAuthHeaders_token_cache (cfg : ApiConfig) :
    (∀ ft : TokenFetch, ∀ s : ApiState, ∀ t : String, s.token = some t →
      ApiService.getAuthHeaders cfg ft s =
        (⟨⟨some cfg.config, some t, some "application/json"⟩, none⟩, s, 0))
    ∧ (∀ s : ApiState, ∀ tk : String, s.token = none → tk ≠ "" →
        ApiService.getAuthHeaders cfg (.ok (some tk)) s =
          (⟨⟨some cfg.config, some tk, some "application/json"⟩, none⟩,
            { s with token := some tk }, 1)
        ∧ (∀ ft2 : TokenFetch,
            ApiService.getAuthHeaders cfg ft2 { s with token := some tk } =
              (⟨⟨some cfg.config, some tk, some "application/json"⟩, none⟩,
                { s with token := some tk }, 0))) := by
  constructor
  · intro ft s t h
    simp [ApiService.getAuthHeaders, h]
  · intro s tk h htk
    have hb : (tk == "") = false := by simp [beq_eq_false_iff_ne, htk]
    constructor
    · simp [ApiService.getAuthHeaders, h, hb]
    · intro ft2
      simp [ApiService.getAuthHeaders]

/-- Witness for C3 on a fresh instance and the token `TOK`. -/
theorem C3_witness :
    ApiService.getAuthHeaders ⟨"http://b", "SL", 30⟩ (.ok (some "TOK")) ⟨none, [], none⟩ =
      (⟨⟨some "SL", some "TOK", some "application/json"⟩, none⟩, ⟨some "TOK", [], none⟩, 1)
    ∧ ApiService.getAuthHeaders ⟨"http://b", "SL", 30⟩ .timeout ⟨some "TOK", [], none⟩ =
      (⟨⟨some "SL", some "TOK", some "application/json"⟩, none⟩, ⟨some "TOK", [], none⟩, 0) :=
  ⟨((C3_getAuthHeaders_token_cache ⟨"http://b", "SL", 30⟩).2 ⟨none, [], none⟩ "TOK"
      rfl (by decide)).1,
    (C3_getAuthHeaders_token_cache ⟨"http://b", "SL", 30⟩).1 .timeout
      ⟨some "TOK", [], none⟩ "TOK" rfl⟩

theorem insertSorted_perm (x : String) (l : List String) :
    List.Perm (insertSorted x l) (x :: l) := by
  induction l with
  | nil => exact List.Perm.refl _
  | cons y ys ih =>
    simp only [insertSorted]
    by_cases h : x ≤ y
    · simp only [h, if_true]
      exact List.Perm.refl _
    · simp only [h, if_false]
      exact (ih.cons y).trans (List.Perm.swap x y ys)

theorem sortStrings_perm (l : List String) : List.Perm (sortStrings l) l := by
  induction l with
  | nil => exact List.Perm.refl _
  | cons x xs ih =>
    exact (insertSorted_perm x (sortStrings xs)).trans (ih.cons x)

theorem insertSorted_sorted (x : String) (l : List String)
    (h : l.Pairwise (· ≤ ·)) : (insertSorted x l).Pairwise (· ≤ ·) := by
  induction l with
  | nil => simp [insertSorted]
  | cons y ys ih =>
    rcases List.pairwise_cons.1 h with ⟨hy, hys⟩
    simp only [insertSorted]
    by_cases hxy : x ≤ y
    · simp only [hxy, if_true]
      refine List.pairwise_cons.2 ⟨?_, h⟩
      intro z hz
      rcases List.mem_cons.1 hz with rfl | hz
      · exact hxy
      · exact le_trans hxy (hy z hz)
    · simp only [hxy, if_false]
      refine List.pairwise_cons.2 ⟨?_, ih hys⟩
      intro z hz
      rcases List.mem_cons.1 ((insertSorted_perm x ys).mem_iff.1 hz) with rfl | hz
      · exact le_of_not_le hxy
      · exact hy z hz

theorem sortStrings_sorted (l : List String) :
    (sortStrings l).Pairwise (· ≤ ·) := by
  induction l with
  | nil => simp [sortStrings]
  | cons x xs ih => exact insertSorted_sorted x (sortStrings xs) ih

theorem dedupLoop_eq_specDedup (l : List String) (seen : List String) :
    dedupLoop l seen =
      specDedup ((l.filter (fun v => v != "")).filter (fun v => !(seen.contains v))) := by
  induction l generalizing seen with
  | nil => simp [dedupLoop, specDedup]
  | cons v rest ih =>
    simp only [dedupLoop, List.filter_cons]
    cases hve : (v != "") with
    | false =>
      simp only [Bool.false_and, Bool.false_eq_true, if_false, hve]
      exact ih seen
    | true =>
      cases hseen : seen.contains v with
      | true =>
        simp only [hve, Bool.true_and, hseen, Bool.not_true, Bool.false_eq_true,
          if_false, if_true, List.filter_cons, hseen, Bool.not_true]
        exact ih seen
      | false =>
        simp only [hve, Bool.true_and, hseen, Bool.not_false, if_true,
          List.filter_cons, specDedup]
        rw [ih (v :: seen)]
        rw [List.filter_filter, List.filter_filter, List.filter_filter]
        refine congrArg (fun m => v :: specDedup m) ?_
        apply List.filter_congr
        intro y _
        cases hyv : y == v <;> cases hys : seen.contains y <;> cases hye : y == "" <;>
          simp_all [List.contains_cons, bne, List.elem_iff, beq_iff_eq]

theorem mem_specDedup (l : List String) (v : String) :
    v ∈ specDedup l ↔ v ∈ l := by
  induction l using specDedup.induct with
  | case1 => simp [specDedup]
  | case2 x xs ih =>
    rw [specDedup, List.mem_cons, ih, List.mem_cons]
    constructor
    · rintro (rfl | hv)
      · exact Or.inl rfl
      · exact Or.inr (List.mem_filter.1 hv).1
    · rintro (rfl | hv)
      · exact Or.inl rfl
      · by_cases hvx : v = x
        · exact Or.inl hvx
        · refine Or.inr (List.mem_filter.2 ⟨hv, ?_⟩)
          simp [bne, hvx]

theorem specDedup_nodup (l : List String) : (specDedup l).Nodup := by
  induction l using specDedup.induct with
  | case1 => simp [specDedup]
  | case2 x xs ih =>
    rw [specDedup]
    refine List.nodup_cons.2 ⟨?_, ih⟩
    intro hx
    rcases List.mem_filter.1 ((mem_specDedup _ _).1 hx) with ⟨_, hne⟩
    simp [bne] at hne

/-- Claim C6: the distinct-value pipeline returns the trimmed stringified
property values with empty strings removed and duplicates removed keeping
the first occurrence, sorted ascending (stated as: the result is sorted,
duplicate-free, contains exactly the non-empty trimmed values, and equals
the sort of the spec-side first-occurrence dedup); a call finding an
unexpired cache entry returns the cached list unchanged with no HTTP
request and no state change; and on a cache miss with successful
authentication and fetch the returned values are exactly the processed
ones. -/
theorem C6_getDistinctValues_correct (cfg : ApiConfig) (ft : TokenFetch) (fl : LoadFetch)
    (ido prop : String) (dur now : Nat) (s : ApiState) (items : List JsRecord) :
    (processDistinct items prop).Pairwise (· ≤ ·)
    ∧ (processDistinct items prop).Nodup
    ∧ (∀ v, v ∈ processDistinct items prop ↔
        v ≠ "" ∧ v ∈ items.map (fun item => jsTrim (stringOrEmpty (jsGet item prop))))
    ∧ processDistinct items prop =
        sortStrings (specDedup
          ((items.map (fun item => jsTrim (stringOrEmpty (jsGet item prop)))).filter
            (fun v => v != "")))
    ∧ (∀ e : CacheEntry, lookupCache s.cache (cacheKey ido prop) = some e → now < e.expiry →
        ApiService.getDistinctValues cfg ft fl ido prop dur now s = (⟨some e.data, none⟩, s, 0))
    ∧ (cacheHit s.cache (cacheKey ido prop) now = false →
        (ApiService.getAuthHeaders cfg ft s).1.error = none →
        (ApiService.getDistinctValues cfg ft (.ok items) ido prop dur now s).1 =
          ⟨some (processDistinct items prop), none⟩) := by
  have heq : processDistinct items prop =
      sortStrings (specDedup
        ((items.map (fun item => jsTrim (stringOrEmpty (jsGet item prop)))).filter
          (fun v => v != ""))) := by
    rw [processDistinct, dedupLoop_eq_specDedup]
    congr 1
    congr 1
    simp
  refine ⟨?_, ?_, ?_, heq, ?_, ?_⟩
  · exact sortStrings_sorted _
  · rw [heq]
    exact ((sortStrings_perm _).nodup_iff).2 (specDedup_nodup _)
  · intro v
    rw [heq, (sortStrings_perm _).mem_iff, mem_specDedup, List.mem_filter]
    simp only [bne, Bool.not_eq_true', beq_eq_false_iff_ne, ne_eq]
    exact ⟨fun ⟨h1, h2⟩ => ⟨h2, h1⟩, fun ⟨h1, h2⟩ => ⟨h2, h1⟩⟩
  · intro e hl he
    unfold ApiService.getDistinctValues
    rw [hl]
    simp [he]
  · intro hmiss hauth
    have hdisp : ApiService.getDistinctValues cfg ft (.ok items) ido prop dur now s =
        ApiService.getDistinctValuesMiss cfg ft (.ok items) ido prop dur now s := by
      unfold ApiService.getDistinctValues
      cases hl : lookupCache s.cache (cacheKey ido prop) with
      | none => rfl
      | some e =>
        unfold cacheHit at hmiss
        rw [hl] at hmiss
        rw [decide_eq_false_iff_not] at hmiss
        simp [hmiss]
    rw [hdisp]
    unfold ApiService.getDistinctValuesMiss
    rcases hga : ApiService.getAuthHeaders cfg ft s with ⟨ar, s1, n1⟩
    rw [hga] at hauth
    simp only at hauth
    simp [hauth]

/-- Witness for C6 on a concrete cached state and concrete rows. -/
theorem C6_witness :
    ApiService.getDistinctValues ⟨"http://b", "SL", 30⟩ .timeout .timeout "IDO" "P" 300 5
        ⟨none, [("IDO_P", ⟨["x"], 10⟩)], none⟩ =
      (⟨some ["x"], none⟩, ⟨none, [("IDO_P", ⟨["x"], 10⟩)], none⟩, 0)
    ∧ ("b" ∈ processDistinct [[("P", some " b ")], [("P", some "b")], [("P", some "")]] "P" ↔
        "b" ≠ "" ∧ "b" ∈ [[("P", some " b ")], [("P", some "b")], [("P", some "")]].map
          (fun item => jsTrim (stringOrEmpty (jsGet item "P")))) :=
  ⟨(C6_getDistinctValues_correct ⟨"http://b", "SL", 30⟩ .timeout .timeout "IDO" "P" 300 5
      ⟨none, [("IDO_P", ⟨["x"], 10⟩)], none⟩ []).2.2.2.2.1 ⟨["x"], 10⟩ (by decide) (by decide),
    (C6_getDistinctValues_correct ⟨"http://b", "SL", 30⟩ .timeout .timeout "IDO" "P" 300 5
      ⟨none, [], none⟩ [[("P", some " b ")], [("P", some "b")], [("P", some "")]]).2.2.1 "b"⟩

/-- Counterexample to claim C8 as stated: `getDistinctValues` is a
data-fetching operation, yet on a cache miss it writes the fetched distinct
values into the instance's in-memory map and persists them to the
`localStorage` mirror — so a client-side store does change beyond producing
the returned value, and fetched results are written to a persisted cache. -/
theorem C8_counterexample :
    (ApiService.getDistinctValues ⟨"http://b", "SL", 30⟩ .timeout (.ok [[("P", some "b")]])
        "IDO" "P" 300 0 ⟨some "TOK", [], none⟩).2.1 ≠ ⟨some "TOK", [], none⟩
    ∧ (ApiService.getDistinctValues ⟨"http://b", "SL", 30⟩ .timeout (.ok [[("P", some "b")]])
        "IDO" "P" 300 0 ⟨some "TOK", [], none⟩).2.1.storage =
      some [("IDO_P", ⟨["b"], 300000⟩)] := by
  constructor
  · decide
  · decide

/-- Claim C8, amended: the client keeps one small distinct-values cache —
`getDistinctValues` writes fetched distinct values to the in-memory map and
its `localStorage` mirror — but the other data-fetching operations are
frame-preserving: `loadCollection`, `testConnection` and `getAuthHeaders`
never change the cache or the persisted slot (only the token field), so
fetched query results from `loadCollection` are never written to any
client-side store. -/
theorem C8_no_store_mutation (cfg : ApiConfig) (ft : TokenFetch) (fl : LoadFetch)
    (s : ApiState) :
    ((ApiService.loadCollection cfg ft fl s).2.1.cache = s.cache
      ∧ (ApiService.loadCollection cfg ft fl s).2.1.storage = s.storage)
    ∧ ((ApiService.testConnection cfg ft s).2.1.cache = s.cache
      ∧ (ApiService.testConnection cfg ft s).2.1.storage = s.storage)
    ∧ ((ApiService.getAuthHeaders cfg ft s).2.1.cache = s.cache
      ∧ (ApiService.getAuthHeaders cfg ft s).2.1.storage = s.storage) := by
  have hga : ∀ ft2 : TokenFetch,
      (ApiService.getAuthHeaders cfg ft2 s).2.1.cache = s.cache
      ∧ (ApiService.getAuthHeaders cfg ft2 s).2.1.storage = s.storage := by
    intro ft2
    cases htok : s.token with
    | some t => simp [ApiService.getAuthHeaders, htok]
    | none =>
      cases ft2 with
      | ok tf =>
        cases tf with
        | none => simp [ApiService.getAuthHeaders, htok]
        | some tk =>
          by_cases h : (tk == "") = true
          · simp [ApiService.getAuthHeaders, htok, h]
          · rw [Bool.not_eq_true] at h
            simp [ApiService.getAuthHeaders, htok, h]
      | httpError st stt b => simp [ApiService.getAuthHeaders, htok]
      | networkError => simp [ApiService.getAuthHeaders, htok]
      | timeout => simp [ApiService.getAuthHeaders, htok]
  refine ⟨?_, ?_, hga ft⟩
  · unfold ApiService.loadCollection
    rcases hg : ApiService.getAuthHeaders cfg ft s with ⟨ar, s1, n1⟩
    have h1 : s1.cache = s.cache := by
      have := (hga ft).1
      rw [hg] at this
      exact this
    have h2 : s1.storage = s.storage := by
      have := (hga ft).2
      rw [hg] at this
      exact this
    cases har : ar.error <;> cases fl <;> simp [har, h1, h2]
  · unfold ApiService.testConnection
    rcases hg : ApiService.getAuthHeaders cfg ft s with ⟨ar, s1, n1⟩
    have h1 : s1.cache = s.cache := by
      have := (hga ft).1
      rw [hg] at this
      exact this
    have h2 : s1.storage = s.storage := by
      have := (hga ft).2
      rw [hg] at this
      exact this
    cases har : ar.error <;> simp [har, h1, h2]

theorem getDistinctValues_miss_of_no_hit (cfg : ApiConfig) (ft : TokenFetch) (fl : LoadFetch)
    (ido prop : String) (dur now : Nat) (s : ApiState)
    (h : cacheHit s.cache (cacheKey ido prop) now = false) :
    ApiService.getDistinctValues cfg ft fl ido prop dur now s =
      ApiService.getDistinctValuesMiss cfg ft fl ido prop dur now s := by
  unfold ApiService.getDistinctValues
  cases hl : lookupCache s.cache (cacheKey ido prop) with
  | none => rfl
  | some e =>
    unfold cacheHit at h
    rw [hl, decide_eq_false_iff_not] at h
    simp [h]

/-- Claim C9: none of the four methods lets a failure escape as an
exception — every failure mode of the token or load request (timeout,
network error, non-OK status, missing or empty token) produces an
error-carrying result value: empty headers plus an error message for
`getAuthHeaders`, an error and no values/data for `getDistinctValues` and
`loadCollection` (both when authentication fails and when the load fails),
and `success: false` plus the error for `testConnection`. (The embedded
methods are total Lean functions into result records, mirroring the
`try`/`catch` wrappers that convert every thrown error into a return
value.) -/
theorem C9_methods_return_errors (cfg : ApiConfig) (ft : TokenFetch) (fl : LoadFetch)
    (ido prop : String) (dur now : Nat) (s : ApiState) :
    (s.token = none → ft.isFailure = true →
      (ApiService.getAuthHeaders cfg ft s).1.headers = emptyHeaders
      ∧ (ApiService.getAuthHeaders cfg ft s).1.error.isSome = true)
    ∧ (∀ e, cacheHit s.cache (cacheKey ido prop) now = false →
        (ApiService.getAuthHeaders cfg ft s).1.error = some e →
        (ApiService.getDistinctValues cfg ft fl ido prop dur now s).1 = ⟨none, some e⟩)
    ∧ (cacheHit s.cache (cacheKey ido prop) now = false →
        (ApiService.getAuthHeaders cfg ft s).1.error = none → fl.isFailure = true →
        (ApiService.getDistinctValues cfg ft fl ido prop dur now s).1.values = none
        ∧ (ApiService.getDistinctValues cfg ft fl ido prop dur now s).1.error.isSome = true)
    ∧ (∀ e, (ApiService.getAuthHeaders cfg ft s).1.error = some e →
        (ApiService.loadCollection cfg ft fl s).1 = ⟨none, some e⟩)
    ∧ ((ApiService.getAuthHeaders cfg ft s).1.error = none → fl.isFailure = true →
        (ApiService.loadCollection cfg ft fl s).1.data = none
        ∧ (ApiService.loadCollection cfg ft fl s).1.error.isSome = true)
    ∧ (∀ e, (ApiService.getAuthHeaders cfg ft s).1.error = some e →
        (ApiService.testConnection cfg ft s).1 = ⟨false, some e⟩) := by
  refine ⟨?_, ?_, ?_, ?_, ?_, ?_⟩
  · intro hnone hfail
    cases ft with
    | ok tf =>
      cases tf with
      | some tk =>
        have htk : (tk == "") = true := hfail
        simp [ApiService.getAuthHeaders, hnone, htk]
      | none => simp [ApiService.getAuthHeaders, hnone]
    | httpError st stt b => simp [ApiService.getAuthHeaders, hnone]
    | networkError => simp [ApiService.getAuthHeaders, hnone]
    | timeout => simp [ApiService.getAuthHeaders, hnone]
  · intro e hmiss hae
    rw [getDistinctValues_miss_of_no_hit cfg ft fl ido prop dur now s hmiss]
    unfold ApiService.getDistinctValuesMiss
    rcases hg : ApiService.getAuthHeaders cfg ft s with ⟨ar, s1, n1⟩
    rw [hg] at hae
    simp only at hae
    simp [hae]
  · intro hmiss hae hfl
    rw [getDistinctValues_miss_of_no_hit cfg ft fl ido prop dur now s hmiss]
    unfold ApiService.getDistinctValuesMiss
    rcases hg : ApiService.getAuthHeaders cfg ft s with ⟨ar, s1, n1⟩
    rw [hg] at hae
    simp only at hae
    cases fl with
    | ok items => exact absurd hfl (by simp [LoadFetch.isFailure])
    | httpError st b => simp [hae]
    | networkError => simp [hae]
    | timeout => simp [hae]
  · intro e hae
    unfold ApiService.loadCollection
    rcases hg : ApiService.getAuthHeaders cfg ft s with ⟨ar, s1, n1⟩
    rw [hg] at hae
    simp only at hae
    simp [hae]
  · intro hae hfl
    unfold ApiService.loadCollection
    rcases hg : ApiService.getAuthHeaders cfg ft s with ⟨ar, s1, n1⟩
    rw [hg] at hae
    simp only at hae
    cases fl with
    | ok items => exact absurd hfl (by simp [LoadFetch.isFailure])
    | httpError st b => simp [hae]
    | networkError => simp [hae]
    | timeout => simp [hae]
  · intro e hae
    unfold ApiService.testConnection
    rcases hg : ApiService.getAuthHeaders cfg ft s with ⟨ar, s1, n1⟩
    rw [hg] at hae
    simp only at hae
    simp [hae]

/-- Witness for C9 on a fresh instance: a timed-out token request and a
non-OK load response. -/
theorem C9_witness :
    ((ApiService.getAuthHeaders ⟨"http://b", "SL", 30⟩ .timeout ⟨none, [], none⟩).1.headers =
        emptyHeaders
      ∧ (ApiService.getAuthHeaders ⟨"http://b", "SL", 30⟩ .timeout ⟨none, [], none⟩).1.error.isSome =
        true)
    ∧ ((ApiService.loadCollection ⟨"http://b", "SL", 30⟩ (.ok (some "TOK")) (.httpError 500 "boom")
        ⟨none, [], none⟩).1.data = none
      ∧ (ApiService.loadCollection ⟨"http://b", "SL", 30⟩ (.ok (some "TOK")) (.httpError 500 "boom")
        ⟨none, [], none⟩).1.error.isSome = true) :=
  ⟨(C9_methods_return_errors ⟨"http://b", "SL", 30⟩ .timeout (.ok []) "IDO" "P" 300 0
      ⟨none, [], none⟩).1 rfl rfl,
    (C9_methods_return_errors ⟨"http://b", "SL", 30⟩ (.ok (some "TOK")) (.httpError 500 "boom")
      "IDO" "P" 300 0 ⟨none, [], none⟩).2.2.2.2.1 (by decide) rfl⟩

theorem getAuthHeaders_zero_requests (cfg : ApiConfig) (ft : TokenFetch) (s : ApiState)
    (h : (ApiService.getAuthHeaders cfg ft s).2.2 = 0) :
    (ApiService.getAuthHeaders cfg ft s).1.error = none := by
  cases htok : s.token with
  | some t => simp [ApiService.getAuthHeaders, htok]
  | none =>
    exfalso
    cases ft with
    | ok tf =>
      cases tf with
      | some tk =>
        by_cases htk : (tk == "") = true
        · simp [ApiService.getAuthHeaders, htok, htk] at h
        · rw [Bool.not_eq_true] at htk
          simp [ApiService.getAuthHeaders, htok, htk] at h
      | none => simp [ApiService.getAuthHeaders, htok] at h
    | httpError st stt b => simp [ApiService.getAuthHeaders, htok] at h
    | networkError => simp [ApiService.getAuthHeaders, htok] at h
    | timeout => simp [ApiService.getAuthHeaders, htok] at h

theorem getDistinctValuesMiss_requests_ne_zero (cfg : ApiConfig) (ft : TokenFetch)
    (fl : LoadFetch) (ido prop : String) (dur now : Nat) (s : ApiState) :
    (ApiService.getDistinctValuesMiss cfg ft fl ido prop dur now s).2.2 ≠ 0 := by
  unfold ApiService.getDistinctValuesMiss
  rcases hg : ApiService.getAuthHeaders cfg ft s with ⟨ar, s1, n1⟩
  cases har : ar.error with
  | some e =>
    intro h0
    simp only [har] at h0
    have hz : (ApiService.getAuthHeaders cfg ft s).2.2 = 0 := by rw [hg]; exact h0
    have := getAuthHeaders_zero_requests cfg ft s hz
    rw [hg] at this
    simp only at this
    rw [har] at this
    cases this
  | none => cases fl <;> simp [har]

/-- Claim C10: expired entries never cross the `localStorage` boundary —
`saveCache` persists only entries with `expiry > now`, `loadCache` inserts
only stored entries with `expiry > now`, an entry read back from a persisted
snapshot was unexpired both when written and when loaded, and a call of
`getDistinctValues` that issued no HTTP request served an existing cache
entry with `now < expiry`. -/
theorem C10_cache_expiry_invariant (cache : List (String × CacheEntry))
    (stored : Option (List (String × CacheEntry))) (noww nowl : Nat)
    (cfg : ApiConfig) (ft : TokenFetch) (fl : LoadFetch) (ido prop : String)
    (dur now : Nat) (s : ApiState) :
    (∀ kv ∈ ApiService.saveCacheData cache noww, noww < kv.2.expiry)
    ∧ (∀ kv ∈ ApiService.loadCacheData stored nowl, nowl < kv.2.expiry)
    ∧ (∀ kv ∈ ApiService.loadCacheData (some (ApiService.saveCacheData cache noww)) nowl,
        noww < kv.2.expiry ∧ nowl < kv.2.expiry)
    ∧ ((ApiService.getDistinctValues cfg ft fl ido prop dur now s).2.2 = 0 →
        ∃ e : CacheEntry, lookupCache s.cache (cacheKey ido prop) = some e ∧ now < e.expiry
          ∧ (ApiService.getDistinctValues cfg ft fl ido prop dur now s).1 =
            ⟨some e.data, none⟩) := by
  have hsave : ∀ kv ∈ ApiService.saveCacheData cache noww, noww < kv.2.expiry := by
    intro kv hkv
    exact of_decide_eq_true (List.mem_filter.1 hkv).2
  refine ⟨hsave, ?_, ?_, ?_⟩
  · intro kv hkv
    cases stored with
    | none => cases hkv
    | some l => exact of_decide_eq_true (List.mem_filter.1 hkv).2
  · intro kv hkv
    have h2 : nowl < kv.2.expiry :=
      of_decide_eq_true (List.mem_filter.1 hkv).2
    have h1 : noww < kv.2.expiry :=
      hsave kv (List.mem_filter.1 hkv).1
    exact ⟨h1, h2⟩
  · intro h0
    unfold ApiService.getDistinctValues at h0 ⊢
    cases hl : lookupCache s.cache (cacheKey ido prop) with
    | some e =>
      rw [hl] at h0
      by_cases he : now < e.expiry
      · exact ⟨e, rfl, he, by simp [he]⟩
      · have h0m : (ApiService.getDistinctValuesMiss cfg ft fl ido prop dur now s).2.2 = 0 := by
          simpa [he] using h0
        exact absurd h0m (getDistinctValuesMiss_requests_ne_zero cfg ft fl ido prop dur now s)
    | none =>
      rw [hl] at h0
      exact absurd h0 (getDistinctValuesMiss_requests_ne_zero cfg ft fl ido prop dur now s)

/-- Witness for C10 on a concrete cache, snapshot and served call. -/
theorem C10_witness :
    (∀ kv ∈ ApiService.saveCacheData [("k", ⟨["v"], 50⟩), ("old", ⟨["w"], 3⟩)] 10,
      10 < kv.2.expiry)
    ∧ (∃ e : CacheEntry, lookupCache (⟨none, [("IDO_P", ⟨["x"], 9⟩)], none⟩ : ApiState).cache
        (cacheKey "IDO" "P") = some e ∧ 5 < e.expiry
        ∧ (ApiService.getDistinctValues ⟨"http://b", "SL", 30⟩ .timeout .timeout "IDO" "P" 300 5
            ⟨none, [("IDO_P", ⟨["x"], 9⟩)], none⟩).1 = ⟨some e.data, none⟩) :=
  ⟨(C10_cache_expiry_invariant [("k", ⟨["v"], 50⟩), ("old", ⟨["w"], 3⟩)] none 10 0
      ⟨"http://b", "SL", 30⟩ .timeout .timeout "IDO" "P" 300 5 ⟨none, [], none⟩).1,
    (C10_cache_expiry_invariant [] none 0 0 ⟨"http://b", "SL", 30⟩ .timeout .timeout
      "IDO" "P" 300 5 ⟨none, [("IDO_P", ⟨["x"], 9⟩)], none⟩).2.2.2 (by decide)⟩

theorem no_infix_of_hex (field : String) (hf : ∀ c ∈ field.data, isLowerHexChar c = true)
    (p : String) (hp : ∃ c ∈ p.data, isLowerHexChar c = false) :
    ¬ (p.data <:+: field.data) := by
  intro hinf
  rcases hp with ⟨c, hcp, hcbad⟩
  have := hf c (hinf.subset hcp)
  rw [this] at hcbad
  cases hcbad

theorem jsonOfEncrypted_chars (e : EncryptedPayload)
    (h1 : ∀ c ∈ e.encrypted.data, isLowerHexChar c = true)
    (h2 : ∀ c ∈ e.salt.data, isLowerHexChar c = true)
    (h3 : ∀ c ∈ e.iv.data, isLowerHexChar c = true) :
    ∀ c ∈ (jsonOfEncrypted e).data, credsAllowedChar c = true := by
  have hhex : ∀ c, isLowerHexChar c = true → credsAllowedChar c = true := by
    intro c h
    simp [credsAllowedChar, h]
  have hs1 : ∀ c ∈ ("\x7b\"encrypted\":\"" : String).data, credsAllowedChar c = true := by
    decide
  have hs2 : ∀ c ∈ ("\",\"salt\":\"" : String).data, credsAllowedChar c = true := by
    decide
  have hs3 : ∀ c ∈ ("\",\"iv\":\"" : String).data, credsAllowedChar c = true := by
    decide
  have hs4 : ∀ c ∈ ("\"\x7d" : String).data, credsAllowedChar c = true := by
    decide
  intro c hc
  simp only [jsonOfEncrypted, String.data_append, List.mem_append] at hc
  rcases hc with ((((((hc | hc) | hc) | hc) | hc) | hc) | hc)
  · exact hs1 c hc
  · exact hhex c (h1 c hc)
  · exact hs2 c hc
  · exact hhex c (h2 c hc)
  · exact hs3 c hc
  · exact hhex c (h3 c hc)
  · exact hs4 c hc

/-- Claim C7: what `saveConfiguration` writes to `user_configurations` and
what `saveCredentials` stores in `localStorage` carry only the hex
ciphertext, salt and IV produced by `EncryptionService.encrypt` of the
serialized credentials (plus the user id and configuration username): the three stored
fields consist solely of lowercase hex digits, decrypt to the serialized
credentials, and any string containing a character outside that alphabet —
such as a typical plaintext password — is neither equal to nor an infix of
them; likewise the whole `localStorage` value uses only hex digits and the
fixed JSON skeleton. -/
theorem C7_stored_only_ciphertext (C : WebCrypto) (hC : C.Sound)
    (serialize : ConfigInput → String) (uid username : String) (cfgd : ConfigInput)
    (encryptionPassword : String) (salt iv : List Nat)
    (hs : ∀ b ∈ salt, b < 256) (hi : ∀ b ∈ iv, b < 256) :
    (ConfigurationService.saveConfiguration C serialize (some uid) [] username cfgd
        encryptionPassword salt iv).2 =
      some (.insert uid username
        (EncryptionService.encrypt C (serialize cfgd) encryptionPassword salt iv).encrypted
        (EncryptionService.encrypt C (serialize cfgd) encryptionPassword salt iv).salt
        (EncryptionService.encrypt C (serialize cfgd) encryptionPassword salt iv).iv)
    ∧ (∀ row : UserConfigRow, row.user_id = uid →
        (ConfigurationService.saveConfiguration C serialize (some uid) [row] username cfgd
          encryptionPassword salt iv).2 =
        some (.update row.id
          (EncryptionService.encrypt C (serialize cfgd) encryptionPassword salt iv).encrypted
          (EncryptionService.encrypt C (serialize cfgd) encryptionPassword salt iv).salt
          (EncryptionService.encrypt C (serialize cfgd) encryptionPassword salt iv).iv))
    ∧ (∀ c ∈ (EncryptionService.encrypt C (serialize cfgd) encryptionPassword salt iv).encrypted.data,
        isLowerHexChar c = true)
    ∧ (∀ c ∈ (EncryptionService.encrypt C (serialize cfgd) encryptionPassword salt iv).salt.data,
        isLowerHexChar c = true)
    ∧ (∀ c ∈ (EncryptionService.encrypt C (serialize cfgd) encryptionPassword salt iv).iv.data,
        isLowerHexChar c = true)
    ∧ (∀ p : String, (∃ c ∈ p.data, isLowerHexChar c = false) →
        ¬ (p.data <:+: (EncryptionService.encrypt C (serialize cfgd) encryptionPassword salt iv).encrypted.data)
        ∧ ¬ (p.data <:+: (EncryptionService.encrypt C (serialize cfgd) encryptionPassword salt iv).salt.data)
        ∧ ¬ (p.data <:+: (EncryptionService.encrypt C (serialize cfgd) encryptionPassword salt iv).iv.data))
    ∧ (∀ c ∈ (CredentialsService.saveCredentials C serialize cfgd encryptionPassword salt iv).data,
        credsAllowedChar c = true)
    ∧ (∀ p : String, (∃ c ∈ p.data, credsAllowedChar c = false) →
        ¬ (p.data <:+: (CredentialsService.saveCredentials C serialize cfgd encryptionPassword salt iv).data))
    ∧ EncryptionService.decrypt C
        (EncryptionService.encrypt C (serialize cfgd) encryptionPassword salt iv).encrypted
        (EncryptionService.encrypt C (serialize cfgd) encryptionPassword salt iv).salt
        (EncryptionService.encrypt C (serialize cfgd) encryptionPassword salt iv).iv
        encryptionPassword = serialize cfgd := by
  obtain ⟨hdec, hencBytes, hdecode, hencodeBytes⟩ := hC
  have hcipher : ∀ b ∈ C.aesGcmEncrypt (C.deriveKey encryptionPassword salt) iv
      (C.textEncode (serialize cfgd)), b < 256 :=
    hencBytes _ _ _ (hencodeBytes (serialize cfgd))
  have h1 : ∀ c ∈ (EncryptionService.encrypt C (serialize cfgd) encryptionPassword salt iv).encrypted.data,
      isLowerHexChar c = true := by
    intro c hc
    exact bytesToHex_chars _ hcipher c hc
  have h2 : ∀ c ∈ (EncryptionService.encrypt C (serialize cfgd) encryptionPassword salt iv).salt.data,
      isLowerHexChar c = true := by
    intro c hc
    exact bytesToHex_chars _ hs c hc
  have h3 : ∀ c ∈ (EncryptionService.encrypt C (serialize cfgd) encryptionPassword salt iv).iv.data,
      isLowerHexChar c = true := by
    intro c hc
    exact bytesToHex_chars _ hi c hc
  have hjson : ∀ c ∈ (CredentialsService.saveCredentials C serialize cfgd encryptionPassword salt iv).data,
      credsAllowedChar c = true :=
    jsonOfEncrypted_chars _ h1 h2 h3
  refine ⟨rfl, ?_, h1, h2, h3, ?_, hjson, ?_, ?_⟩
  · intro row hrow
    have hb1 : (row.user_id == uid) = true := by simp [hrow]
    have hb2 : (row.user_id != uid) = false := by simp [bne, hrow]
    simp [ConfigurationService.saveConfiguration, List.find?, hb1, hb2]
  · intro p hp
    exact ⟨no_infix_of_hex _ h1 p hp, no_infix_of_hex _ h2 p hp, no_infix_of_hex _ h3 p hp⟩
  · intro p hp hinf
    rcases hp with ⟨c, hcp, hcbad⟩
    have := hjson c (hinf.subset hcp)
    rw [this] at hcbad
    cases hcbad
  · simp only [EncryptionService.encrypt, EncryptionService.decrypt]
    rw [hexToBytes_bytesToHex salt hs, hexToBytes_bytesToHex iv hi,
      hexToBytes_bytesToHex _ hcipher, hdec, hdecode]

/-- Witness for C7 at a concrete crypto instance, credentials and password. -/
theorem C7_witness :
    (ConfigurationService.saveConfiguration idCrypto (fun _ => "CREDS") (some "uid1") []
        "syteuser" ⟨"http://b", "SL", "syteuser", "P@ss!"⟩ "encPw" [1, 2] [3]).2 =
      some (.insert "uid1" "syteuser"
        (EncryptionService.encrypt idCrypto "CREDS" "encPw" [1, 2] [3]).encrypted
        (EncryptionService.encrypt idCrypto "CREDS" "encPw" [1, 2] [3]).salt
        (EncryptionService.encrypt idCrypto "CREDS" "encPw" [1, 2] [3]).iv)
    ∧ ¬ (("P@ss!" : String).data <:+:
        (CredentialsService.saveCredentials idCrypto (fun _ => "CREDS")
          ⟨"http://b", "SL", "syteuser", "P@ss!"⟩ "encPw" [1, 2] [3]).data)
    ∧ EncryptionService.decrypt idCrypto
        (EncryptionService.encrypt idCrypto "CREDS" "encPw" [1, 2] [3]).encrypted
        (EncryptionService.encrypt idCrypto "CREDS" "encPw" [1, 2] [3]).salt
        (EncryptionService.encrypt idCrypto "CREDS" "encPw" [1, 2] [3]).iv
        "encPw" = "CREDS" :=
  ⟨(C7_stored_only_ciphertext idCrypto idCrypto_sound (fun _ => "CREDS") "uid1" "syteuser"
      ⟨"http://b", "SL", "syteuser", "P@ss!"⟩ "encPw" [1, 2] [3] (by decide) (by decide)).1,
    (C7_stored_only_ciphertext idCrypto idCrypto_sound (fun _ => "CREDS") "uid1" "syteuser"
      ⟨"http://b", "SL", "syteuser", "P@ss!"⟩ "encPw" [1, 2] [3] (by decide)
      (by decide)).2.2.2.2.2.2.2.1 "P@ss!" ⟨Char.ofNat 64, by decide, by decide⟩,
    (C7_stored_only_ciphertext idCrypto idCrypto_sound (fun _ => "CREDS") "uid1" "syteuser"
      ⟨"http://b", "SL", "syteuser", "P@ss!"⟩ "encPw" [1, 2] [3] (by decide)
      (by decide)).2.2.2.2.2.2.2.2⟩
